import Mathlib

/-!
Verification of EmotionSense-AI's voice-service inference logic.

Shallow embedding of two source files:
  src/voice-service/huggingface_emotion.py   (Hub-Model Classifier)
  backend/src/voice-service/test_custom_model.py (Custom-Model Loader/Prober)

External collaborators (model-hub fetches, audio decoding, the forward
pass, keras loading, the model invocations of the probe) are modelled as
environments of `Except String` outcomes, one per call site; everything
the Python file computes itself (the scores dictionary, max/index, the
label table, control flow of the probe and of the two-strategy load) is
translated directly.  Probabilities are modelled as rationals.
-/

namespace EmotionSense

/-- Ordered emotion-label table: the `id2label` dictionary of
huggingface_emotion.py, whose keys are the strings "0".."7" in order;
the lookup `id2label[str(i)]` is modelled as positional `List.get?`. -/
def id2label : List String :=
  ["angry", "calm", "disgust", "fear", "happy", "neutral", "sad", "surprise"]

/-- The label the table assigns to index `i` (junk default past the end,
used only under a bound `i < 8`). -/
def labelOf (i : Nat) : String :=
  (id2label.get? i).getD ""

/-- Rendering of the Python KeyError raised by `id2label[str(i)]` when the
key is missing. -/
def keyErrorMsg (i : Nat) : String :=
  "KeyError " ++ toString i

/-- The scores-dictionary loop of `classify_audio` (lines 58-62):
`for i in range(len(probs)): scores[id2label[str(i)]] = probs[i]`.
A missing key raises, which propagates to the handler. -/
def buildScoresAux : List ℚ → Nat → Except String (List (String × ℚ))
  | [], _ => Except.ok []
  | p :: rest, i =>
    match id2label.get? i with
    | none => Except.error (keyErrorMsg i)
    | some lab =>
      match buildScoresAux rest (i + 1) with
      | Except.ok tail => Except.ok ((lab, p) :: tail)
      | Except.error e => Except.error e

def buildScores (probs : List ℚ) : Except String (List (String × ℚ)) :=
  buildScoresAux probs 0

/-- Python `max(probs)`: the greatest element; raises ValueError on an
empty list. -/
def pyMax : List ℚ → Except String ℚ
  | [] => Except.error "max() arg is an empty sequence"
  | p :: rest => Except.ok (rest.foldl max p)

/-- Python `probs.index(v)`: the index of the first occurrence of `v`. -/
def pyIndexAux (v : ℚ) : List ℚ → Option Nat
  | [] => none
  | x :: xs => if x = v then some 0 else Option.map (fun n => n + 1) (pyIndexAux v xs)

def pyIndex (probs : List ℚ) (v : ℚ) : Except String Nat :=
  match pyIndexAux v probs with
  | some i => Except.ok i
  | none => Except.error "is not in list"

/-- The scores shown for a successful run: the pair list the loop builds,
label `i` paired with the i-th probability. -/
def expectedScores : List ℚ → Nat → List (String × ℚ)
  | [], _ => []
  | p :: rest, i => (labelOf i, p) :: expectedScores rest (i + 1)

/-- Post-processing of the softmax vector inside `classify_audio`
(lines 58-75): build the scores dictionary, take the maximum probability,
its first index, and the label at that index.  Each step may raise, and
the error then propagates to the handler of `classify_audio`. -/
def postprocess (probs : List ℚ) : Except String (String × ℚ × List (String × ℚ)) :=
  match buildScores probs with
  | Except.error e => Except.error e
  | Except.ok scores =>
    match pyMax probs with
    | Except.error e => Except.error e
    | Except.ok m =>
      match pyIndex probs m with
      | Except.error e => Except.error e
      | Except.ok idx =>
        match id2label.get? idx with
        | none => Except.error (keyErrorMsg idx)
        | some emo => Except.ok (emo, m, scores)

/-- The JSON result object of huggingface_emotion.py: every field that may
be absent from the emitted object is an `Option`. -/
structure HubResult where
  success : Bool
  emotion : Option String
  confidence : Option ℚ
  scores : Option (List (String × ℚ))
  error : Option String
  model : Option String
  deriving DecidableEq, Repr

/-- Outcomes of the external collaborators used by `classify_audio`, in
call order: hub fetch of the model, hub fetch of the feature extractor,
audio decode/resample, and the forward pass producing the softmax
probability vector. -/
structure HubEnv where
  loadModel : Except String Unit
  loadExtractor : Except String Unit
  loadAudio : Except String Unit
  runForward : Except String (List ℚ)
  deriving Repr

/-- The external stages of `classify_audio` in source order (lines 36-56);
the first exception wins. -/
def hubStages (env : HubEnv) : Except String (List ℚ) :=
  match env.loadModel with
  | Except.error e => Except.error e
  | Except.ok _ =>
    match env.loadExtractor with
    | Except.error e => Except.error e
    | Except.ok _ =>
      match env.loadAudio with
      | Except.error e => Except.error e
      | Except.ok _ => env.runForward

/-- The failure object built in the `except` handlers (lines 77-81 and
95-100): success false, the exception text as error, nothing else. -/
def failureResult (e : String) : HubResult :=
  { success := false, emotion := none, confidence := none,
    scores := none, error := some e, model := none }

/-- The success object of lines 69-75. -/
def successResult (emo : String) (conf : ℚ) (scores : List (String × ℚ)) : HubResult :=
  { success := true, emotion := some emo, confidence := some conf,
    scores := some scores, error := none, model := some "huggingface-prithiv" }

/-- `classify_audio(model_name, audio_path)` (lines 31-81): the whole body
runs in a try-block; any exception `e` becomes `failureResult (str e)`. -/
def classify_audio (modelName audioPath : String) (env : HubEnv) : HubResult :=
  match hubStages env with
  | Except.error e => failureResult e
  | Except.ok probs =>
    match postprocess probs with
    | Except.error e => failureResult e
    | Except.ok out => successResult out.1 out.2.1 out.2.2

/-- The `__main__` block (lines 83-100): reads `sys.argv[1]` and
`sys.argv[2]` inside a try-block, so a missing argument raises IndexError
and is converted into the failure object as well. -/
def hubMain (argv : List String) (env : HubEnv) : HubResult :=
  match argv.get? 1 with
  | none => failureResult "list index out of range"
  | some modelName =>
    match argv.get? 2 with
    | none => failureResult "list index out of range"
    | some audioPath => classify_audio modelName audioPath env

/-- Shape invariant of a classification result (spec section 3): on
failure, emotion/confidence/scores absent and error present; on success,
the converse. -/
def resultWellFormed (r : HubResult) : Prop :=
  (r.success = false →
    r.emotion = none ∧ r.confidence = none ∧ r.scores = none ∧ r.error ≠ none) ∧
  (r.success = true →
    r.emotion ≠ none ∧ r.confidence ≠ none ∧ r.scores ≠ none ∧ r.error = none)

/-! ### The Custom-Model Loader/Prober (test_custom_model.py) -/

/-- The two ways the probe invokes the loaded model (lines 140-157):
`model(x, training=False)` and `model.predict(x, verbose=0)`. -/
inductive InvocationMethod where
  | directCall
  | predictCall
  deriving DecidableEq, Repr

abbrev Shape3 := Nat × Nat × Nat

/-- The candidate input shapes in source order (`test_shapes`,
lines 129-132). -/
def testShapes : List Shape3 := [(1, 40, 174), (1, 174, 40)]

/-- The full priority order of (shape, method) combinations the probe can
try. -/
def canonicalProbeOrder : List (Shape3 × InvocationMethod) :=
  [((1, 40, 174), InvocationMethod.directCall),
   ((1, 40, 174), InvocationMethod.predictCall),
   ((1, 174, 40), InvocationMethod.directCall),
   ((1, 174, 40), InvocationMethod.predictCall)]

/-- Outcome of invoking the loaded artifact on a synthetic input of a
given shape with a given method: external, hence an environment. -/
structure ProbeEnv where
  invoke : Shape3 → InvocationMethod → Except String Unit

/-- The probe loop of `test_model` (lines 134-160) over a list of shapes:
direct call first; if it raises, the predict call; if both raise, record
the two failures and move to the next shape; `break` on the first success.
Returns the failed attempts, each with its error message, and the
successful combination when one exists. -/
def runProbeAux (env : ProbeEnv) :
    List Shape3 → List (Shape3 × InvocationMethod × String) × Option (Shape3 × InvocationMethod)
  | [] => ([], none)
  | s :: rest =>
    match env.invoke s InvocationMethod.directCall with
    | Except.ok _ => ([], some (s, InvocationMethod.directCall))
    | Except.error e1 =>
      match env.invoke s InvocationMethod.predictCall with
      | Except.ok _ =>
        ([(s, InvocationMethod.directCall, e1)], some (s, InvocationMethod.predictCall))
      | Except.error e2 =>
        match runProbeAux env rest with
        | (log, res) =>
          ((s, InvocationMethod.directCall, e1) :: (s, InvocationMethod.predictCall, e2) :: log,
            res)

def runProbe (env : ProbeEnv) :
    List (Shape3 × InvocationMethod × String) × Option (Shape3 × InvocationMethod) :=
  runProbeAux env testShapes

/-- All combinations attempted by a probe outcome, in order: the failed
ones, then the successful one when the probe resolved. -/
def attemptsOf
    (r : List (Shape3 × InvocationMethod × String) × Option (Shape3 × InvocationMethod)) :
    List (Shape3 × InvocationMethod) :=
  r.1.map (fun a => (a.1, a.2.1)) ++
    (match r.2 with
     | some c => [c]
     | none => [])

def probeAttempts (env : ProbeEnv) : List (Shape3 × InvocationMethod) :=
  attemptsOf (runProbe env)

/-- The priority order of combinations for a given shape list: direct
call then predict call, shape by shape. -/
def canonicalOrderOf (shapes : List Shape3) : List (Shape3 × InvocationMethod) :=
  shapes.flatMap (fun s => [(s, InvocationMethod.directCall), (s, InvocationMethod.predictCall)])

/-- The probe's diagnostic outcome: either the first working combination,
or the per-attempt failures when no combination worked (the transcript of
the printed warnings). -/
inductive ProbeReport where
  | resolved (shape : Shape3) (method : InvocationMethod)
  | inferenceFailed (failures : List (Shape3 × InvocationMethod × String))
  deriving DecidableEq, Repr

def probeReport (env : ProbeEnv) : ProbeReport :=
  match runProbe env with
  | (_, some c) => ProbeReport.resolved c.1 c.2
  | (log, none) => ProbeReport.inferenceFailed log

/-- Outcomes of the two keras load attempts of `test_model`
(lines 105-120): with the CompatibleAttention substitution registered, and
the standard load without it. -/
structure LoadEnv where
  withSubstitution : Except String Unit
  withoutSubstitution : Except String Unit

/-- The two-strategy load (lines 105-120): try the substitution-based
load; if it raises, retry the standard load; if that raises too, the
reported cause is the second error. -/
def loadModelStep (env : LoadEnv) : Except String Unit :=
  match env.withSubstitution with
  | Except.ok m => Except.ok m
  | Except.error _ =>
    match env.withoutSubstitution with
    | Except.ok m => Except.ok m
    | Except.error e2 => Except.error e2

/-- What one run of `test_model` establishes, as a tagged outcome: the
artifact file was missing; both load attempts failed (with the second
attempt's cause); or the probe ran to completion with its report. -/
inductive TestOutcome where
  | artifactNotFound
  | loadFailed (cause : String)
  | completedProbe (report : ProbeReport)
  deriving DecidableEq, Repr

structure TestEnv where
  artifactExists : Bool
  load : LoadEnv
  probe : ProbeEnv

/-- `test_model` (lines 13-168): check that the artifact path exists
(before any load attempt, returning early when it does not), run the
two-strategy load, then the shape/method probe. -/
def test_model (env : TestEnv) : TestOutcome :=
  if env.artifactExists then
    match loadModelStep env.load with
    | Except.error e => TestOutcome.loadFailed e
    | Except.ok _ => TestOutcome.completedProbe (probeReport env.probe)
  else TestOutcome.artifactNotFound

/-- A weight allocated by a layer's build step. -/
structure AttentionWeight where
  name : String
  shape : List Nat
  initValue : ℚ
  trainable : Bool
  deriving DecidableEq, Repr

/-- Configuration state of the CompatibleAttention layer (lines 44-48):
`use_scale` and `score_mode` from the constructor, `supports_masking`
always set there. -/
structure CompatibleAttention where
  use_scale : Bool := false
  score_mode : String := "dot"
  supports_masking : Bool := true
  deriving DecidableEq, Repr

/-- `CompatibleAttention.build` (lines 50-59): allocates the single
trainable scalar weight named scale, with the ones initializer, only when
`use_scale` is set. -/
def CompatibleAttention.buildWeights (l : CompatibleAttention) : List AttentionWeight :=
  if l.use_scale then
    [{ name := "scale", shape := [], initValue := 1, trainable := true }]
  else []

def CompatibleAttention.trainableWeights (l : CompatibleAttention) : List AttentionWeight :=
  l.buildWeights.filter (fun w => w.trainable)

/-! ### Concrete environments used by witnesses and counterexamples -/

/-- One tenth, as an already-normalized rational (so that the kernel can
evaluate comparisons on it). -/
def qTenth : ℚ := Rat.mk' 1 10 (by norm_num) (by norm_num)

/-- One twentieth, normalized. -/
def qTwentieth : ℚ := Rat.mk' 1 20 (by norm_num) (by norm_num)

/-- One half, normalized. -/
def qHalf : ℚ := Rat.mk' 1 2 (by norm_num) (by norm_num)

/-- The probability vector of the spec's worked example,
[0.1, 0.05, 0.05, 0.1, 0.5, 0.1, 0.05, 0.05] (see the bridge lemma
`exampleProbs_decimal`). -/
def exampleProbs : List ℚ :=
  [qTenth, qTwentieth, qTwentieth, qTenth, qHalf, qTenth, qTwentieth, qTwentieth]

/-- A 9-entry softmax vector: one entry more than the label table has. -/
def nineProbs : List ℚ := List.replicate 9 qTenth

/-- A 3-entry softmax vector: fewer entries than the label table has. -/
def threeProbs : List ℚ := [qTenth, qHalf, qTwentieth]

/-- All external stages succeed and the forward pass yields the worked
example's vector. -/
def hubEnvOk : HubEnv :=
  { loadModel := Except.ok (), loadExtractor := Except.ok (),
    loadAudio := Except.ok (), runForward := Except.ok exampleProbs }

/-- The hub fetch of the model fails (unreachable identifier). -/
def hubEnvFetchFail : HubEnv :=
  { loadModel := Except.error "connection error", loadExtractor := Except.ok (),
    loadAudio := Except.ok (), runForward := Except.ok exampleProbs }

/-- The forward pass yields an empty probability vector. -/
def hubEnvEmpty : HubEnv :=
  { loadModel := Except.ok (), loadExtractor := Except.ok (),
    loadAudio := Except.ok (), runForward := Except.ok [] }

/-- The forward pass yields a 9-entry vector. -/
def hubEnvNine : HubEnv :=
  { loadModel := Except.ok (), loadExtractor := Except.ok (),
    loadAudio := Except.ok (), runForward := Except.ok nineProbs }

/-- The forward pass yields a 3-entry vector. -/
def hubEnvThree : HubEnv :=
  { loadModel := Except.ok (), loadExtractor := Except.ok (),
    loadAudio := Except.ok (), runForward := Except.ok threeProbs }

/-- An artifact that accepts only shape (1,174,40) via the predict call. -/
def probeEnvPredictOnly : ProbeEnv :=
  { invoke := fun s m =>
      if s = ((1 : Nat), (174 : Nat), (40 : Nat)) ∧ m = InvocationMethod.predictCall then
        Except.ok ()
      else Except.error "incompatible" }

/-- An artifact that rejects every (shape, method) combination, each with
its own message. -/
def probeEnvAllFail : ProbeEnv :=
  { invoke := fun s m =>
      match m with
      | InvocationMethod.directCall =>
        if s = ((1 : Nat), (40 : Nat), (174 : Nat)) then Except.error "err direct a"
        else Except.error "err direct b"
      | InvocationMethod.predictCall =>
        if s = ((1 : Nat), (40 : Nat), (174 : Nat)) then Except.error "err predict a"
        else Except.error "err predict b" }

/-! ### Helper lemmas -/

lemma resultWellFormed_failure (e : String) : resultWellFormed (failureResult e) := by
  constructor
  · intro _
    refine ⟨rfl, rfl, rfl, ?_⟩
    simp [failureResult]
  · intro h
    simp [failureResult] at h

lemma resultWellFormed_success (emo : String) (conf : ℚ) (scores : List (String × ℚ)) :
    resultWellFormed (successResult emo conf scores) := by
  constructor
  · intro h
    simp [successResult] at h
  · intro _
    refine ⟨?_, ?_, ?_, rfl⟩ <;> simp [successResult]

lemma resultWellFormed_classify (mn ap : String) (env : HubEnv) :
    resultWellFormed (classify_audio mn ap env) := by
  unfold classify_audio
  split
  · exact resultWellFormed_failure _
  · split
    · exact resultWellFormed_failure _
    · exact resultWellFormed_success _ _ _

lemma foldl_max_mem (p : ℚ) (xs : List ℚ) : xs.foldl max p ∈ p :: xs := by
  induction xs generalizing p with
  | nil => simp
  | cons x xs ih =>
    have h := ih (max p x)
    simp only [List.foldl_cons]
    rcases List.mem_cons.mp h with h1 | h1
    · rw [h1]
      rcases max_choice p x with h2 | h2 <;> rw [h2] <;> simp
    · simp [h1]

lemma le_foldl_max (p : ℚ) (xs : List ℚ) : ∀ x ∈ p :: xs, x ≤ xs.foldl max p := by
  induction xs generalizing p with
  | nil =>
    intro x hx
    simp only [List.mem_singleton] at hx
    simp [hx]
  | cons y ys ih =>
    intro x hx
    simp only [List.foldl_cons]
    have hself : max p y ≤ ys.foldl max (max p y) :=
      ih (max p y) (max p y) (List.mem_cons_self _ _)
    rcases List.mem_cons.mp hx with h1 | h1
    · rw [h1]
      exact le_trans (le_max_left p y) hself
    · rcases List.mem_cons.mp h1 with h2 | h2
      · rw [h2]
        exact le_trans (le_max_right p y) hself
      · exact ih (max p y) x (List.mem_cons_of_mem _ h2)

lemma pyIndexAux_spec (v : ℚ) (xs : List ℚ) (i : Nat) (h : pyIndexAux v xs = some i) :
    xs.get? i = some v ∧ ∀ j, j < i → xs.get? j ≠ some v := by
  induction xs generalizing i with
  | nil => simp [pyIndexAux] at h
  | cons x xs ih =>
    by_cases hx : x = v
    · simp only [pyIndexAux, if_pos hx, Option.some.injEq] at h
      subst h
      refine ⟨by simp [hx], ?_⟩
      intro j hj
      omega
    · simp only [pyIndexAux, if_neg hx] at h
      rcases hmap : pyIndexAux v xs with _ | k
      · rw [hmap] at h
        simp at h
      · rw [hmap] at h
        simp at h
        subst h
        obtain ⟨h1, h2⟩ := ih k hmap
        refine ⟨by simpa using h1, ?_⟩
        intro j hj
        cases j with
        | zero =>
          simp only [List.get?_cons_zero]
          intro hc
          exact hx (Option.some.inj hc)
        | succ j =>
          simp only [List.get?_cons_succ]
          exact h2 j (by omega)

lemma pyIndexAux_isSome (v : ℚ) (xs : List ℚ) (h : v ∈ xs) :
    (pyIndexAux v xs).isSome = true := by
  induction xs with
  | nil => simp at h
  | cons x xs ih =>
    by_cases hx : x = v
    · simp only [pyIndexAux, if_pos hx]
      rfl
    · rcases List.mem_cons.mp h with h1 | h1
      · exact absurd h1.symm hx
      · have h2 := ih h1
        simp only [pyIndexAux, if_neg hx]
        rcases hmap : pyIndexAux v xs with _ | k
        · rw [hmap] at h2
          simp at h2
        · simp

lemma id2label_get_lt (i : Nat) (hi : i < 8) : id2label.get? i = some (labelOf i) := by
  rcases hs : id2label.get? i with _ | s
  · have hlen := List.get?_eq_none.mp hs
    have : id2label.length = 8 := by rfl
    omega
  · simp only [labelOf]
    rw [hs]
    simp

lemma id2label_get_ge (i : Nat) (hi : 8 ≤ i) : id2label.get? i = none := by
  apply List.get?_eq_none.mpr
  have : id2label.length = 8 := by rfl
  omega

lemma buildScoresAux_ok (probs : List ℚ) (i : Nat) (h : i + probs.length ≤ 8) :
    buildScoresAux probs i = Except.ok (expectedScores probs i) := by
  induction probs generalizing i with
  | nil => rfl
  | cons p rest ih =>
    have hlen : rest.length + 1 = (p :: rest).length := by simp
    have hi : i < 8 := by omega
    have h2 : i + 1 + rest.length ≤ 8 := by
      simp only [List.length_cons] at h
      omega
    simp only [buildScoresAux, id2label_get_lt i hi, ih (i + 1) h2, expectedScores]

lemma buildScoresAux_err (probs : List ℚ) (i : Nat) (hne : probs ≠ [])
    (h : 8 < i + probs.length) :
    ∃ e, buildScoresAux probs i = Except.error e := by
  induction probs generalizing i with
  | nil => exact absurd rfl hne
  | cons p rest ih =>
    by_cases hi : i < 8
    · have hr : rest ≠ [] := by
        intro hnil
        rw [hnil] at h
        simp at h
        omega
      have h2 : 8 < i + 1 + rest.length := by
        simp only [List.length_cons] at h
        omega
      obtain ⟨e, he⟩ := ih (i + 1) hr h2
      exact ⟨e, by simp only [buildScoresAux, id2label_get_lt i hi, he]⟩
    · exact ⟨keyErrorMsg i, by simp only [buildScoresAux, id2label_get_ge i (by omega)]⟩

lemma expectedScores_length (probs : List ℚ) (i : Nat) :
    (expectedScores probs i).length = probs.length := by
  induction probs generalizing i with
  | nil => rfl
  | cons p rest ih => simp [expectedScores, ih]

lemma expectedScores_mem (probs : List ℚ) (i : Nat) (pr : String × ℚ)
    (h : pr ∈ expectedScores probs i) : pr.2 ∈ probs := by
  induction probs generalizing i with
  | nil => simp [expectedScores] at h
  | cons p rest ih =>
    simp only [expectedScores] at h
    rcases List.mem_cons.mp h with h1 | h1
    · rw [h1]
      simp
    · exact List.mem_cons_of_mem _ (ih (i + 1) h1)

lemma labelOf_bounded_inj : ∀ a, a < 8 → ∀ b, b < 8 → a ≠ b → labelOf a ≠ labelOf b := by
  decide

lemma lookup_expectedScores (probs : List ℚ) (i k : Nat)
    (h8 : i + probs.length ≤ 8) (hk : k < probs.length) :
    (expectedScores probs i).lookup (labelOf (i + k)) = probs.get? k := by
  induction probs generalizing i k with
  | nil => simp at hk
  | cons p rest ih =>
    cases k with
    | zero =>
      simp [expectedScores, List.lookup]
    | succ k =>
      have hik : i + (k + 1) < 8 := by
        simp only [List.length_cons] at h8 hk
        omega
      have hne : labelOf (i + (k + 1)) ≠ labelOf i :=
        labelOf_bounded_inj (i + (k + 1)) hik i (by omega) (by omega)
      have hbeq : (labelOf (i + (k + 1)) == labelOf i) = false :=
        beq_eq_false_iff_ne.mpr hne
      simp only [expectedScores, List.lookup, hbeq]
      rw [show i + (k + 1) = i + 1 + k from by omega]
      have h8a : i + 1 + rest.length ≤ 8 := by
        simp only [List.length_cons] at h8
        omega
      have hka : k < rest.length := by
        simp only [List.length_cons] at hk
        omega
      simpa using ih (i + 1) k h8a hka

/-- On a nonempty vector of at most 8 probabilities, classify_audio
succeeds, and its result fields are the label of the first index of the
maximum, the maximum itself, and the loop-built scores list. -/
lemma classify_success_of (mn ap : String) (env : HubEnv) (probs : List ℚ)
    (hstage : hubStages env = Except.ok probs)
    (hne : probs ≠ []) (hlen : probs.length ≤ 8) :
    ∃ idx conf,
      probs.get? idx = some conf ∧
      (∀ j, j < idx → probs.get? j ≠ some conf) ∧
      (∀ x ∈ probs, x ≤ conf) ∧
      idx < probs.length ∧
      pyIndexAux conf probs = some idx ∧
      classify_audio mn ap env =
        successResult (labelOf idx) conf (expectedScores probs 0) := by
  obtain ⟨p, rest, rfl⟩ : ∃ p rest, probs = p :: rest := by
    rcases probs with _ | ⟨p, rest⟩
    · exact absurd rfl hne
    · exact ⟨p, rest, rfl⟩
  set conf := rest.foldl max p with hconf
  have hmem : conf ∈ p :: rest := foldl_max_mem p rest
  have hub : ∀ x ∈ p :: rest, x ≤ conf := le_foldl_max p rest
  have hidx : (pyIndexAux conf (p :: rest)).isSome = true := pyIndexAux_isSome conf _ hmem
  rcases hidxeq : pyIndexAux conf (p :: rest) with _ | idx
  · rw [hidxeq] at hidx
    simp at hidx
  obtain ⟨hget, hfirst⟩ := pyIndexAux_spec conf _ idx hidxeq
  have hlt : idx < (p :: rest).length := by
    by_contra hge
    rw [List.get?_eq_none.mpr (by omega)] at hget
    simp at hget
  refine ⟨idx, conf, hget, hfirst, hub, hlt, hidxeq, ?_⟩
  have hbs : buildScores (p :: rest) = Except.ok (expectedScores (p :: rest) 0) :=
    buildScoresAux_ok _ 0 (by omega)
  have hmax : pyMax (p :: rest) = Except.ok conf := rfl
  have hpi : pyIndex (p :: rest) conf = Except.ok idx := by
    simp only [pyIndex, hidxeq]
  have hlab : id2label.get? idx = some (labelOf idx) := id2label_get_lt idx (by omega)
  have hpost : postprocess (p :: rest) =
      Except.ok (labelOf idx, conf, expectedScores (p :: rest) 0) := by
    simp only [postprocess, hbs, hmax, hpi, hlab]
  simp only [classify_audio, hstage, hpost]

lemma qHalf_decimal : qHalf = 1 / 2 := by
  norm_num [qHalf, Rat.mk'_eq_divInt, Rat.divInt_eq_div]

lemma exampleProbs_decimal :
    exampleProbs = [0.1, 0.05, 0.05, 0.1, 0.5, 0.1, 0.05, 0.05] := by
  norm_num [exampleProbs, qTenth, qTwentieth, qHalf, Rat.mk'_eq_divInt, Rat.divInt_eq_div]

lemma canonicalOrderOf_testShapes : canonicalOrderOf testShapes = canonicalProbeOrder := rfl

lemma attemptsOf_cons2 (s : Shape3) (e1 e2 : String)
    (log : List (Shape3 × InvocationMethod × String))
    (res : Option (Shape3 × InvocationMethod)) :
    attemptsOf
        ((s, InvocationMethod.directCall, e1) :: (s, InvocationMethod.predictCall, e2) :: log,
          res) =
      (s, InvocationMethod.directCall) :: (s, InvocationMethod.predictCall) ::
        attemptsOf (log, res) := by
  simp [attemptsOf]

/-- The attempt sequence is always an initial segment of the canonical
priority order. -/
lemma runProbeAux_order (env : ProbeEnv) (shapes : List Shape3) :
    ∃ t, canonicalOrderOf shapes = attemptsOf (runProbeAux env shapes) ++ t := by
  induction shapes with
  | nil => exact ⟨[], rfl⟩
  | cons s rest ih =>
    rcases h1 : env.invoke s InvocationMethod.directCall with e1 | u1
    · rcases h2 : env.invoke s InvocationMethod.predictCall with e2 | u2
      · obtain ⟨t, ht⟩ := ih
        rcases hrec : runProbeAux env rest with ⟨log, res⟩
        rw [hrec] at ht
        refine ⟨t, ?_⟩
        rw [show runProbeAux env (s :: rest) =
            ((s, InvocationMethod.directCall, e1) ::
              (s, InvocationMethod.predictCall, e2) :: log, res) from by
          simp only [runProbeAux, h1, h2, hrec]]
        rw [attemptsOf_cons2]
        simp only [canonicalOrderOf, List.flatMap_cons, List.cons_append, List.nil_append,
          List.append_assoc] at ht ⊢
        rw [ht]
      · refine ⟨canonicalOrderOf rest, ?_⟩
        rw [show runProbeAux env (s :: rest) =
            ([(s, InvocationMethod.directCall, e1)],
              some (s, InvocationMethod.predictCall)) from by
          simp only [runProbeAux, h1, h2]]
        simp [canonicalOrderOf, attemptsOf, List.flatMap_cons]
    · refine ⟨(s, InvocationMethod.predictCall) :: canonicalOrderOf rest, ?_⟩
      rw [show runProbeAux env (s :: rest) =
          ([], some (s, InvocationMethod.directCall)) from by
        simp only [runProbeAux, h1]]
      simp [canonicalOrderOf, attemptsOf, List.flatMap_cons]

/-- A predict-call combination is attempted only when the direct call on
the same shape raised. -/
lemma runProbeAux_pred_only_after (env : ProbeEnv) (shapes : List Shape3) :
    ∀ s, (s, InvocationMethod.predictCall) ∈ attemptsOf (runProbeAux env shapes) →
      ∃ e, env.invoke s InvocationMethod.directCall = Except.error e := by
  induction shapes with
  | nil =>
    intro s hs
    simp [attemptsOf, runProbeAux] at hs
  | cons s0 rest ih =>
    intro s hs
    rcases h1 : env.invoke s0 InvocationMethod.directCall with e1 | u1
    · rcases h2 : env.invoke s0 InvocationMethod.predictCall with e2 | u2
      · rcases hrec : runProbeAux env rest with ⟨log, res⟩
        rw [show runProbeAux env (s0 :: rest) =
            ((s0, InvocationMethod.directCall, e1) ::
              (s0, InvocationMethod.predictCall, e2) :: log, res) from by
          simp only [runProbeAux, h1, h2, hrec], attemptsOf_cons2] at hs
        rcases List.mem_cons.mp hs with hh | hs2
        · simp at hh
        · rcases List.mem_cons.mp hs2 with hh | hs3
          · have hss : s = s0 := congrArg Prod.fst hh
            rw [hss]
            exact ⟨e1, h1⟩
          · exact ih s (by rw [hrec]; exact hs3)
      · rw [show runProbeAux env (s0 :: rest) =
            ([(s0, InvocationMethod.directCall, e1)],
              some (s0, InvocationMethod.predictCall)) from by
          simp only [runProbeAux, h1, h2]] at hs
        have hss : s = s0 := by
          simp [attemptsOf] at hs
          exact hs
        rw [hss]
        exact ⟨e1, h1⟩
    · rw [show runProbeAux env (s0 :: rest) =
          ([], some (s0, InvocationMethod.directCall)) from by
        simp only [runProbeAux, h1]] at hs
      simp [attemptsOf] at hs

/-- When the probe resolves, the resolved combination really succeeded
and every logged attempt really raised. -/
lemma runProbeAux_resolved (env : ProbeEnv) (shapes : List Shape3)
    (c : Shape3 × InvocationMethod) (h : (runProbeAux env shapes).2 = some c) :
    (∃ u, env.invoke c.1 c.2 = Except.ok u) ∧
    ∀ a ∈ (runProbeAux env shapes).1, ∃ e, env.invoke a.1 a.2.1 = Except.error e := by
  induction shapes with
  | nil => simp [runProbeAux] at h
  | cons s0 rest ih =>
    rcases h1 : env.invoke s0 InvocationMethod.directCall with e1 | u1
    · rcases h2 : env.invoke s0 InvocationMethod.predictCall with e2 | u2
      · rcases hrec : runProbeAux env rest with ⟨log, res⟩
        rw [show runProbeAux env (s0 :: rest) =
            ((s0, InvocationMethod.directCall, e1) ::
              (s0, InvocationMethod.predictCall, e2) :: log, res) from by
          simp only [runProbeAux, h1, h2, hrec]] at h ⊢
        simp only at h
        obtain ⟨hok, hfail⟩ := ih (by rw [hrec]; exact h)
        refine ⟨hok, ?_⟩
        intro a ha
        rcases List.mem_cons.mp ha with hh | ha2
        · rw [hh]
          exact ⟨e1, h1⟩
        · rcases List.mem_cons.mp ha2 with hh | ha3
          · rw [hh]
            exact ⟨e2, h2⟩
          · exact hfail a (by rw [hrec]; exact ha3)
      · rw [show runProbeAux env (s0 :: rest) =
            ([(s0, InvocationMethod.directCall, e1)],
              some (s0, InvocationMethod.predictCall)) from by
          simp only [runProbeAux, h1, h2]] at h ⊢
        simp only [Option.some.injEq] at h
        subst h
        refine ⟨⟨u2, h2⟩, ?_⟩
        intro a ha
        simp only [List.mem_singleton] at ha
        rw [ha]
        exact ⟨e1, h1⟩
    · rw [show runProbeAux env (s0 :: rest) =
          ([], some (s0, InvocationMethod.directCall)) from by
        simp only [runProbeAux, h1]] at h ⊢
      simp only [Option.some.injEq] at h
      subst h
      exact ⟨⟨u1, h1⟩, by intro a ha; simp at ha⟩

/-! ### Claim theorems -/

/-- Claim C1: every failure of the external stages of classify_audio
(model fetch, feature-extractor fetch, audio decode, forward pass) is
caught and becomes the failure object carrying exactly the exception's
message; classify_audio is a total function into well-formed results, so
nothing propagates past its boundary; and the main block emits a
well-formed result on any argv, in particular the failure object for the
IndexError of a missing command-line argument. -/
theorem classify_audio_error_boundary :
    (∀ (mn ap : String) (env : HubEnv) (e : String),
        hubStages env = Except.error e →
        classify_audio mn ap env = failureResult e) ∧
    (∀ (mn ap : String) (env : HubEnv), resultWellFormed (classify_audio mn ap env)) ∧
    (∀ (argv : List String) (env : HubEnv), resultWellFormed (hubMain argv env)) ∧
    (∀ (env : HubEnv), hubMain [] env = failureResult "list index out of range") := by
  refine ⟨?_, ?_, ?_, ?_⟩
  · intro mn ap env e h
    unfold classify_audio
    rw [h]
  · exact resultWellFormed_classify
  · intro argv env
    unfold hubMain
    rcases argv.get? 1 with _ | mn
    · exact resultWellFormed_failure _
    · rcases argv.get? 2 with _ | ap
      · exact resultWellFormed_failure _
      · exact resultWellFormed_classify mn ap env
  · intro env
    rfl

/-- Witness for C1: a concrete unreachable-hub environment yields the
failure object with the (non-empty) exception message, through the
theorem itself. -/
theorem classify_audio_error_boundary_witness :
    classify_audio "prithivMLmods" "clip.wav" hubEnvFetchFail = failureResult "connection error" :=
  classify_audio_error_boundary.1 "prithivMLmods" "clip.wav" hubEnvFetchFail "connection error" rfl

/-- Claim C3: every result of classify_audio satisfies the shape
invariant: on failure, emotion/confidence/scores absent and error
present; on success the converse. -/
theorem classify_audio_shape_invariant (mn ap : String) (env : HubEnv) :
    resultWellFormed (classify_audio mn ap env) :=
  resultWellFormed_classify mn ap env

/-- Witness for C3 at two concrete environments, one failing and one
succeeding. -/
theorem classify_audio_shape_invariant_witness :
    resultWellFormed (classify_audio "m" "a" hubEnvFetchFail) ∧
    resultWellFormed (classify_audio "m" "a" hubEnvOk) :=
  ⟨classify_audio_shape_invariant "m" "a" hubEnvFetchFail,
   classify_audio_shape_invariant "m" "a" hubEnvOk⟩

/-- Claim C6: the loader tries the substitution-based load first (when it
succeeds, the standard-load outcome is never consulted); only if it raises
is the standard load tried; and when both fail the reported cause is the
second attempt's error, whatever the first one was. -/
theorem test_model_load_fallback :
    (∀ (pe : ProbeEnv) (alt : Except String Unit),
        test_model ⟨true, ⟨Except.ok (), alt⟩, pe⟩ =
          TestOutcome.completedProbe (probeReport pe)) ∧
    (∀ (pe : ProbeEnv) (e1 : String),
        test_model ⟨true, ⟨Except.error e1, Except.ok ()⟩, pe⟩ =
          TestOutcome.completedProbe (probeReport pe)) ∧
    (∀ (pe : ProbeEnv) (e1 e2 : String),
        test_model ⟨true, ⟨Except.error e1, Except.error e2⟩, pe⟩ =
          TestOutcome.loadFailed e2) :=
  ⟨fun _ _ => rfl, fun _ _ => rfl, fun _ _ _ => rfl⟩

/-- Claim C7: for every configuration (any score_mode, any masking flag),
building with use_scale false allocates zero trainable weights, and
building with use_scale true allocates exactly the one trainable scalar
weight named scale, initialized to 1. -/
theorem compatible_attention_build_weights (sm : String) (msk : Bool) :
    CompatibleAttention.trainableWeights ⟨false, sm, msk⟩ = [] ∧
    CompatibleAttention.trainableWeights ⟨true, sm, msk⟩ =
      [{ name := "scale", shape := [], initValue := 1, trainable := true }] :=
  ⟨rfl, rfl⟩

/-- Claim C2: for every probability vector the forward pass can produce
(nonempty, within the label table), the dominant emotion is the label at
the first index of the maximum probability and the confidence is that
maximum; in particular, on the spec's worked example
[0.1, 0.05, 0.05, 0.1, 0.5, 0.1, 0.05, 0.05] (see
`exampleProbs_decimal`) the result is happy with confidence one half. -/
theorem classify_audio_dominant (mn ap : String) (env : HubEnv) (probs : List ℚ)
    (hstage : hubStages env = Except.ok probs)
    (hne : probs ≠ []) (hlen : probs.length ≤ 8) :
    (∃ idx conf,
      (classify_audio mn ap env).emotion = some (labelOf idx) ∧
      (classify_audio mn ap env).confidence = some conf ∧
      probs.get? idx = some conf ∧
      (∀ j, j < idx → probs.get? j ≠ some conf) ∧
      (∀ x ∈ probs, x ≤ conf)) ∧
    (probs = exampleProbs →
      (classify_audio mn ap env).emotion = some "happy" ∧
      (classify_audio mn ap env).confidence = some (1 / 2)) := by
  obtain ⟨idx, conf, hget, hfirst, hub, hlt, hidxeq, hres⟩ :=
    classify_success_of mn ap env probs hstage hne hlen
  constructor
  · refine ⟨idx, conf, ?_, ?_, hget, hfirst, hub⟩
    · rw [hres]
      rfl
    · rw [hres]
      rfl
  · intro hp
    subst hp
    have hcls : classify_audio mn ap env =
        successResult "happy" qHalf (expectedScores exampleProbs 0) := by
      simp only [classify_audio, hstage]
      rfl
    rw [hcls, qHalf_decimal]
    exact ⟨rfl, rfl⟩

/-- Witness for C2: the worked example evaluated through the theorem. -/
theorem classify_audio_dominant_witness :
    (classify_audio "prithivMLmods" "clip.wav" hubEnvOk).emotion = some "happy" ∧
    (classify_audio "prithivMLmods" "clip.wav" hubEnvOk).confidence = some (1 / 2) :=
  (classify_audio_dominant "prithivMLmods" "clip.wav" hubEnvOk exampleProbs rfl
    (by decide) (by decide)).2 rfl

/-- Claim C9: in every successful result of classify_audio, the
confidence equals the score stored in the scores mapping under the
returned emotion label, and that score is maximal among all stored
scores. -/
theorem classify_audio_confidence_consistent (mn ap : String) (env : HubEnv)
    (h : (classify_audio mn ap env).success = true) :
    ∃ emo conf scores,
      (classify_audio mn ap env).emotion = some emo ∧
      (classify_audio mn ap env).confidence = some conf ∧
      (classify_audio mn ap env).scores = some scores ∧
      scores.lookup emo = some conf ∧
      ∀ pr ∈ scores, pr.2 ≤ conf := by
  rcases hstage : hubStages env with e | probs
  · simp [classify_audio, hstage, failureResult] at h
  · by_cases hne : probs = []
    · subst hne
      simp [classify_audio, hstage, postprocess, buildScores, buildScoresAux, pyMax,
        failureResult] at h
    · by_cases hlen : probs.length ≤ 8
      · obtain ⟨idx, conf, hget, hfirst, hub, hlt, hidxeq, hres⟩ :=
          classify_success_of mn ap env probs hstage hne hlen
        refine ⟨labelOf idx, conf, expectedScores probs 0, ?_, ?_, ?_, ?_, ?_⟩
        · rw [hres]
          rfl
        · rw [hres]
          rfl
        · rw [hres]
          rfl
        · have hl := lookup_expectedScores probs 0 idx (by omega) hlt
          rw [Nat.zero_add] at hl
          rw [hl, hget]
        · intro pr hpr
          exact hub pr.2 (expectedScores_mem probs 0 pr hpr)
      · obtain ⟨e, he⟩ := buildScoresAux_err probs 0 hne (by omega)
        have hbs : buildScores probs = Except.error e := he
        simp [classify_audio, hstage, postprocess, hbs, failureResult] at h

/-- Witness for C9 at a concrete successful environment. -/
theorem classify_audio_confidence_consistent_witness :
    ∃ emo conf scores,
      (classify_audio "prithivMLmods" "clip.wav" hubEnvOk).emotion = some emo ∧
      (classify_audio "prithivMLmods" "clip.wav" hubEnvOk).confidence = some conf ∧
      (classify_audio "prithivMLmods" "clip.wav" hubEnvOk).scores = some scores ∧
      scores.lookup emo = some conf ∧
      ∀ pr ∈ scores, pr.2 ≤ conf :=
  classify_audio_confidence_consistent "prithivMLmods" "clip.wav" hubEnvOk (by decide)

/-- Claim C10 as stated is refuted by the empty softmax vector: it has
fewer than 8 entries and every external stage succeeds, yet
classify_audio returns a failure result (Python max raises on an empty
sequence), not a success with that many labels. -/
theorem classify_audio_short_vector_cex :
    hubStages hubEnvEmpty = Except.ok [] ∧
    ([] : List ℚ).length < 8 ∧
    (classify_audio "m" "a" hubEnvEmpty).success = false ∧
    (classify_audio "m" "a" hubEnvEmpty).error = some "max() arg is an empty sequence" :=
  ⟨rfl, by decide, rfl, rfl⟩

/-- Claim C10 (amended): when the external stages succeed, a softmax
vector with more than 8 entries makes classify_audio return a failure
result (the label-table lookup at index 8 raises and is caught at the
boundary); a nonempty vector with fewer than 8 entries yields a success
whose scores mapping contains exactly as many labels as the vector has
entries; the empty vector also yields a failure result, because max of an
empty sequence raises before any label is used. -/
theorem classify_audio_vector_length (mn ap : String) (env : HubEnv) (probs : List ℚ)
    (hstage : hubStages env = Except.ok probs) :
    (8 < probs.length →
      (classify_audio mn ap env).success = false ∧
      (classify_audio mn ap env).error ≠ none) ∧
    (probs ≠ [] → probs.length < 8 →
      (classify_audio mn ap env).success = true ∧
      ∃ scores, (classify_audio mn ap env).scores = some scores ∧
        scores.length = probs.length) ∧
    (probs = [] →
      classify_audio mn ap env = failureResult "max() arg is an empty sequence") := by
  refine ⟨?_, ?_, ?_⟩
  · intro hgt
    have hne : probs ≠ [] := by
      intro hnil
      rw [hnil] at hgt
      simp at hgt
    obtain ⟨e, he⟩ := buildScoresAux_err probs 0 hne (by omega)
    have hbs : buildScores probs = Except.error e := he
    have hcls : classify_audio mn ap env = failureResult e := by
      simp only [classify_audio, hstage, postprocess, hbs]
    rw [hcls]
    exact ⟨rfl, by simp [failureResult]⟩
  · intro hne hlt
    obtain ⟨idx, conf, hget, hfirst, hub, hidxlt, hidxeq, hres⟩ :=
      classify_success_of mn ap env probs hstage hne (by omega)
    rw [hres]
    exact ⟨rfl, ⟨expectedScores probs 0, rfl, expectedScores_length probs 0⟩⟩
  · intro hnil
    subst hnil
    simp only [classify_audio, hstage]
    rfl

/-- Witness for C10 (amended): a 9-entry vector fails, a 3-entry vector
succeeds, through the theorem. -/
theorem classify_audio_vector_length_witness :
    (classify_audio "m" "a" hubEnvNine).success = false ∧
    (classify_audio "m" "a" hubEnvThree).success = true :=
  ⟨((classify_audio_vector_length "m" "a" hubEnvNine nineProbs rfl).1 (by decide)).1,
   ((classify_audio_vector_length "m" "a" hubEnvThree threeProbs rfl).2.1
      (by decide) (by decide)).1⟩

/-- Claim C4: the probe tries the (shape, method) combinations in the
fixed priority order (its attempt list is always an initial segment of
the canonical order); a predict call is attempted on a shape only when
the direct call on it raised; the probe stops at the first success (the
resolved combination is the last attempt, it succeeded, and every logged
attempt before it raised); and when exactly the last combination
(shape (1,174,40), predict call) is the accepted one, all four
combinations are attempted and the probe terminates there. -/
theorem probe_order (env : ProbeEnv) :
    (∃ t, canonicalProbeOrder = probeAttempts env ++ t) ∧
    (∀ s : Shape3, (s, InvocationMethod.predictCall) ∈ probeAttempts env →
      ∃ e, env.invoke s InvocationMethod.directCall = Except.error e) ∧
    (∀ c, (runProbe env).2 = some c →
      (probeAttempts env).getLast? = some c ∧
      (∃ u, env.invoke c.1 c.2 = Except.ok u) ∧
      ∀ a ∈ (runProbe env).1, ∃ e, env.invoke a.1 a.2.1 = Except.error e) ∧
    ((∃ e, env.invoke (1, 40, 174) InvocationMethod.directCall = Except.error e) →
     (∃ e, env.invoke (1, 40, 174) InvocationMethod.predictCall = Except.error e) →
     (∃ e, env.invoke (1, 174, 40) InvocationMethod.directCall = Except.error e) →
     (∃ u, env.invoke (1, 174, 40) InvocationMethod.predictCall = Except.ok u) →
     probeAttempts env = canonicalProbeOrder ∧
     (runProbe env).2 = some ((1, 174, 40), InvocationMethod.predictCall)) := by
  refine ⟨?_, ?_, ?_, ?_⟩
  · obtain ⟨t, ht⟩ := runProbeAux_order env testShapes
    rw [← canonicalOrderOf_testShapes]
    exact ⟨t, ht⟩
  · intro s hs
    exact runProbeAux_pred_only_after env testShapes s hs
  · intro c hc
    obtain ⟨hok, hfail⟩ := runProbeAux_resolved env testShapes c hc
    refine ⟨?_, hok, hfail⟩
    have hatt : probeAttempts env = (runProbe env).1.map (fun a => (a.1, a.2.1)) ++ [c] := by
      simp [probeAttempts, attemptsOf, hc]
    rw [hatt, List.getLast?_concat]
  · intro hd1 hd2 hd3 hd4
    obtain ⟨e1, h1⟩ := hd1
    obtain ⟨e2, h2⟩ := hd2
    obtain ⟨e3, h3⟩ := hd3
    obtain ⟨u4, h4⟩ := hd4
    have hrun : runProbe env =
        ([((1, 40, 174), InvocationMethod.directCall, e1),
          ((1, 40, 174), InvocationMethod.predictCall, e2),
          ((1, 174, 40), InvocationMethod.directCall, e3)],
         some ((1, 174, 40), InvocationMethod.predictCall)) := by
      simp only [runProbe, testShapes, runProbeAux, h1, h2, h3, h4]
    constructor
    · simp [probeAttempts, attemptsOf, hrun, canonicalProbeOrder]
    · rw [hrun]

/-- Witness for C4: an artifact accepting only (1,174,40) via the predict
call attempts all four combinations and resolves at the last one. -/
theorem probe_order_witness :
    probeAttempts probeEnvPredictOnly = canonicalProbeOrder ∧
    (runProbe probeEnvPredictOnly).2 = some ((1, 174, 40), InvocationMethod.predictCall) :=
  (probe_order probeEnvPredictOnly).2.2.2
    ⟨"incompatible", rfl⟩ ⟨"incompatible", rfl⟩ ⟨"incompatible", rfl⟩ ⟨(), rfl⟩

/-- Claim C5: when all four (shape, method) combinations fail, the probe
resolves nothing and its report enumerates the four attempted
combinations, each with its own error message. -/
theorem probe_all_fail_report (env : ProbeEnv) (e1 e2 e3 e4 : String)
    (h1 : env.invoke (1, 40, 174) InvocationMethod.directCall = Except.error e1)
    (h2 : env.invoke (1, 40, 174) InvocationMethod.predictCall = Except.error e2)
    (h3 : env.invoke (1, 174, 40) InvocationMethod.directCall = Except.error e3)
    (h4 : env.invoke (1, 174, 40) InvocationMethod.predictCall = Except.error e4) :
    probeReport env = ProbeReport.inferenceFailed
      [((1, 40, 174), InvocationMethod.directCall, e1),
       ((1, 40, 174), InvocationMethod.predictCall, e2),
       ((1, 174, 40), InvocationMethod.directCall, e3),
       ((1, 174, 40), InvocationMethod.predictCall, e4)] := by
  simp only [probeReport, runProbe, testShapes, runProbeAux, h1, h2, h3, h4]

/-- Witness for C5 on a concrete all-failing artifact. -/
theorem probe_all_fail_report_witness :
    probeReport probeEnvAllFail = ProbeReport.inferenceFailed
      [((1, 40, 174), InvocationMethod.directCall, "err direct a"),
       ((1, 40, 174), InvocationMethod.predictCall, "err predict a"),
       ((1, 174, 40), InvocationMethod.directCall, "err direct b"),
       ((1, 174, 40), InvocationMethod.predictCall, "err predict b")] :=
  probe_all_fail_report probeEnvAllFail "err direct a" "err predict a" "err direct b"
    "err predict b" rfl rfl rfl rfl

/-- Claim C8: when the artifact path does not exist, test_model reports
ArtifactNotFound whatever the load and probe environments would have done:
the existence check precedes any load attempt and no shape/method probe
runs. -/
theorem test_model_artifact_not_found (le : LoadEnv) (pe : ProbeEnv) :
    test_model ⟨false, le, pe⟩ = TestOutcome.artifactNotFound :=
  rfl

end EmotionSense
